import Mathlib

/-!
Verification of the content indexing and rendering pipeline of a
content-driven static blog site.

The repository's own logic consists of the listing-page query in
`layouts/index.vue` and the markdown pipeline configuration in
`nuxt.config.ts`; the content framework supplying the query engine,
front-matter extraction and anchor generation is an external module whose
contract is given by the specification, so those parts are modelled from
the specification and clearly marked as such.
-/

namespace Blog

/-- Table-of-contents options, from `content.markdown.toc` in `nuxt.config.ts`. -/
structure TocConfig where
  depth : Nat
  searchDepth : Nat
deriving DecidableEq, Repr

/-- A content document: front-matter metadata fields plus markdown body,
as described by the data model (path, title, author, createdAt,
description, tags, body, tocConfig). -/
structure Document where
  path : String
  title : String
  author : String
  createdAt : String
  description : String
  tags : List String
  body : String
  tocConfig : TocConfig
deriving DecidableEq, Repr

/-- A field value inside a queried record: a string, a string sequence
(tags), or a table-of-contents configuration. -/
inductive FieldValue where
  | str : String → FieldValue
  | strList : List String → FieldValue
  | toc : TocConfig → FieldValue
deriving DecidableEq, Repr

/-- The named fields of a document, in a fixed enumeration order, as exposed
to the query facility (the `_path` key names the document path, matching the
`_path` key used by the listing query in `layouts/index.vue`). -/
def docFields (d : Document) : List (String × FieldValue) :=
  [("_path", FieldValue.str d.path),
   ("title", FieldValue.str d.title),
   ("author", FieldValue.str d.author),
   ("createdAt", FieldValue.str d.createdAt),
   ("description", FieldValue.str d.description),
   ("tags", FieldValue.strList d.tags),
   ("body", FieldValue.str d.body),
   ("tocConfig", FieldValue.toc d.tocConfig)]

/-- The recognized field names of a document record. -/
def recognizedFields : List String :=
  ["_path", "title", "author", "createdAt", "description", "tags", "body", "tocConfig"]

/-- Lexicographic comparison of character sequences by code point; total and
transitive, defined on arbitrary strings so that a sort over unparsed
placeholder values cannot fail. -/
def strListLe : List Char → List Char → Bool
  | [], _ => true
  | _ :: _, [] => false
  | a :: as, b :: bs =>
    if a.toNat < b.toNat then true
    else if b.toNat < a.toNat then false
    else strListLe as bs

/-- Best-effort total comparison of sort values: lexicographic on the
underlying characters. -/
def strLe (a b : String) : Bool := strListLe a.data b.data

theorem strListLe_refl : ∀ as : List Char, strListLe as as = true
  | [] => rfl
  | a :: as => by simp [strListLe, strListLe_refl as]

theorem strListLe_total : ∀ as bs : List Char,
    strListLe as bs = true ∨ strListLe bs as = true
  | [], _ => Or.inl rfl
  | _ :: _, [] => Or.inr rfl
  | a :: as, b :: bs => by
    rcases Nat.lt_trichotomy a.toNat b.toNat with h | h | h
    · left; simp [strListLe, h]
    · rcases strListLe_total as bs with ih | ih
      · left; simp [strListLe, h, ih]
      · right; simp [strListLe, h, ih]
    · right; simp [strListLe, h]

theorem strListLe_cons (a b : Char) (as bs : List Char) :
    strListLe (a :: as) (b :: bs) = true ↔
      a.toNat < b.toNat ∨ (a.toNat = b.toNat ∧ strListLe as bs = true) := by
  simp only [strListLe]
  split
  · next h1 => simp [h1]
  · next h1 =>
    split
    · next h2 =>
      simp only [Bool.false_eq_true, false_iff]
      rintro (h | ⟨h, -⟩) <;> omega
    · next h2 =>
      have heq : a.toNat = b.toNat := by omega
      simp [heq]

theorem strListLe_trans : ∀ as bs cs : List Char,
    strListLe as bs = true → strListLe bs cs = true → strListLe as cs = true
  | [], _, _, _, _ => rfl
  | _ :: _, [], _, h1, _ => by simp [strListLe] at h1
  | _ :: _, _ :: _, [], _, h2 => by simp [strListLe] at h2
  | a :: as, b :: bs, c :: cs, h1, h2 => by
    rw [strListLe_cons] at h1 h2 ⊢
    rcases h1 with h1 | ⟨h1, h1r⟩ <;> rcases h2 with h2 | ⟨h2, h2r⟩
    · exact Or.inl (by omega)
    · exact Or.inl (by omega)
    · exact Or.inl (by omega)
    · exact Or.inr ⟨by omega, strListLe_trans as bs cs h1r h2r⟩

theorem strLe_refl (a : String) : strLe a a = true := strListLe_refl a.data

theorem strLe_total (a b : String) : strLe a b = true ∨ strLe b a = true :=
  strListLe_total a.data b.data

theorem strLe_trans {a b c : String} (h1 : strLe a b = true) (h2 : strLe b c = true) :
    strLe a c = true :=
  strListLe_trans a.data b.data c.data h1 h2

/-- The string sort value of a document under a sort key; `createdAt` is kept
as an opaque string, compared best-effort, per the data model. -/
def sortString (d : Document) : String → String
  | "_path" => d.path
  | "title" => d.title
  | "author" => d.author
  | "createdAt" => d.createdAt
  | "description" => d.description
  | _ => ""

/-- A query over the Content Index, per the specification contract
`query(excludePaths, sortKey, sortDirection, projection)`. -/
structure Query where
  excludePaths : List String
  sortKey : String
  sortDesc : Bool
  projection : List String
deriving DecidableEq, Repr

/-- Failure of a query with an unrecognized sort key. -/
inductive QueryError where
  | invalidQuery : String → QueryError
deriving DecidableEq, Repr

/-- A projected record: the selected fields of one document. -/
abbrev ProjRecord : Type := List (String × FieldValue)

/-- Projection of a document onto a set of requested fields: only the
requested fields appear in the output record. -/
def projectFields (fields : List String) (d : Document) : ProjRecord :=
  (docFields d).filter (fun kv => fields.contains kv.1)

/-- The comparator used by the stable sort: for a descending sort, `a` may
come before `b` when the sort value of `b` is at most that of `a`. -/
def sortLe (q : Query) (a b : Document) : Bool :=
  if q.sortDesc then strLe (sortString b q.sortKey) (sortString a q.sortKey)
  else strLe (sortString a q.sortKey) (sortString b q.sortKey)

/-- The sort order of a query, as a relation on documents. -/
def sortRel (q : Query) (a b : Document) : Prop := sortLe q a b = true

instance sortRelDecidable (q : Query) : DecidableRel (sortRel q) :=
  fun a b => Bool.decEq (sortLe q a b) true

theorem sortRel_total (q : Query) (a b : Document) : sortRel q a b ∨ sortRel q b a := by
  unfold sortRel sortLe
  cases q.sortDesc <;> simp only [if_true, if_false, Bool.false_eq_true] <;>
    exact (strLe_total _ _).symm.imp id id |>.symm

theorem sortRel_trans (q : Query) (a b c : Document) :
    sortRel q a b → sortRel q b c → sortRel q a c := by
  unfold sortRel sortLe
  cases q.sortDesc <;> simp only [if_true, if_false, Bool.false_eq_true] <;>
    intro h1 h2
  · exact strLe_trans h1 h2
  · exact strLe_trans h2 h1

instance (q : Query) : IsTotal Document (sortRel q) := ⟨sortRel_total q⟩

instance (q : Query) : IsTrans Document (sortRel q) := ⟨sortRel_trans q⟩

/-- Modelled from the spec: the Content Index query engine (the
`queryContent` facility of the content framework, which is not among the
repository's source files; `layouts/index.vue` only calls it). Records whose
path is in `excludePaths` are dropped before sorting; the remaining records
are stably sorted by the sort key; each record is projected onto the
requested fields. An unrecognized sort key fails with `InvalidQuery`. -/
def runQuery (store : List Document) (q : Query) :
    Except QueryError (List ProjRecord) :=
  if recognizedFields.contains q.sortKey then
    let kept := store.filter (fun d => !q.excludePaths.contains d.path)
    let sorted := List.insertionSort (sortRel q) kept
    Except.ok (sorted.map (projectFields q.projection))
  else
    Except.error (QueryError.invalidQuery q.sortKey)

/-- The listing query issued by `layouts/index.vue`: exclude `/blog`, sort by
`createdAt` descending, select title, author, createdAt, `_path`, description
and tags. -/
def listingQuery : Query :=
  { excludePaths := ["/blog"]
    sortKey := "createdAt"
    sortDesc := true
    projection := ["title", "author", "createdAt", "_path", "description", "tags"] }

/-- The documents surviving the listing filter, in store enumeration order. -/
def listingKept (store : List Document) : List Document :=
  store.filter (fun d => !listingQuery.excludePaths.contains d.path)

/-- The documents of the listing result, in output order. -/
def listingDocs (store : List Document) : List Document :=
  List.insertionSort (sortRel listingQuery) (listingKept store)

theorem runQuery_listing (store : List Document) :
    runQuery store listingQuery =
      Except.ok ((listingDocs store).map (projectFields listingQuery.projection)) := by
  rfl

theorem projectFields_listing (d : Document) :
    projectFields listingQuery.projection d =
      [("_path", FieldValue.str d.path),
       ("title", FieldValue.str d.title),
       ("author", FieldValue.str d.author),
       ("createdAt", FieldValue.str d.createdAt),
       ("description", FieldValue.str d.description),
       ("tags", FieldValue.strList d.tags)] := by
  rfl

/-- A minimal document fixture with a given path and creation date, with the
table-of-contents options of `nuxt.config.ts` (depth 2, search depth 4). -/
def mkDoc (p c : String) : Document :=
  { path := p, title := "", author := "", createdAt := c,
    description := "", tags := [], body := "", tocConfig := ⟨2, 4⟩ }

/-- C1: for every store contents, the listing query result never contains a
record whose path equals the excluded listing-root path `/blog`: records
whose path is in `excludePaths` are dropped before sorting. -/
theorem listing_never_contains_excluded_path (store : List Document)
    (out : List ProjRecord) (hout : runQuery store listingQuery = Except.ok out) :
    ∀ r ∈ out, ("_path", FieldValue.str "/blog") ∉ r := by
  rw [runQuery_listing] at hout
  obtain rfl : out = (listingDocs store).map (projectFields listingQuery.projection) :=
    (Except.ok.inj hout).symm
  intro r hr hmem
  obtain ⟨d, hd, rfl⟩ := List.mem_map.mp hr
  have hd2 : d ∈ listingKept store := (List.mem_insertionSort (sortRel listingQuery)).mp hd
  have hpath : d.path ≠ "/blog" := by
    have h2 := (List.mem_filter.mp hd2).2
    simp only [listingQuery, List.contains_cons, List.contains_nil, Bool.or_false,
      Bool.not_eq_eq_eq_not, Bool.not_true, beq_eq_false_iff_ne, ne_eq] at h2
    exact fun h => h2 (by simp [h])
  rw [projectFields_listing] at hmem
  simp only [List.mem_cons, List.not_mem_nil, or_false, Prod.mk.injEq] at hmem
  rcases hmem with ⟨-, h⟩ | h | h | h | h | h
  · exact hpath (FieldValue.str.inj h).symm
  all_goals simp_all

/-- Witness for C1: in a concrete two-document store containing the `/blog`
index document, the record that the listing does output carries a path other
than the excluded one. -/
theorem listing_never_contains_excluded_path_witness :
    ("_path", FieldValue.str "/blog") ∉
      projectFields listingQuery.projection
        (mkDoc "/blog/apache-kafka-python" "April 8th 2023") :=
  listing_never_contains_excluded_path
    [mkDoc "/blog" "", mkDoc "/blog/apache-kafka-python" "April 8th 2023"] _ rfl
    (projectFields listingQuery.projection
      (mkDoc "/blog/apache-kafka-python" "April 8th 2023"))
    (by decide)

/-- C2: the default listing query sorts by `createdAt` descending with a
stable sort: the output is pairwise descending under the best-effort string
order, ties on `createdAt` keep their Document Store enumeration order, and
the example store with creation dates 2023-01-01, 2024-01-01, 2023-06-01
lists as 2024-01-01, 2023-06-01, 2023-01-01. -/
theorem listing_sort_desc_stable (store : List Document) :
    List.Pairwise (fun a b => strLe b.createdAt a.createdAt = true) (listingDocs store) ∧
    (∀ a b : Document, a.createdAt = b.createdAt →
      List.Sublist [a, b] (listingKept store) → List.Sublist [a, b] (listingDocs store)) ∧
    listingDocs [mkDoc "/a" "2023-01-01", mkDoc "/b" "2024-01-01", mkDoc "/c" "2023-06-01"] =
      [mkDoc "/b" "2024-01-01", mkDoc "/c" "2023-06-01", mkDoc "/a" "2023-01-01"] := by
  refine ⟨?_, ?_, by decide⟩
  · exact List.sorted_insertionSort (sortRel listingQuery) (listingKept store)
  · intro a b hab hsub
    refine List.pair_sublist_insertionSort ?_ hsub
    show strLe b.createdAt a.createdAt = true
    rw [hab]
    exact strLe_refl _

/-- Witness for C2: in a concrete store two documents tied on `createdAt`
keep their enumeration order in the listing output. -/
theorem listing_sort_desc_stable_witness :
    List.Sublist [mkDoc "/a" "2023-01-01", mkDoc "/c" "2023-01-01"]
      (listingDocs [mkDoc "/a" "2023-01-01", mkDoc "/b" "2024-01-01",
        mkDoc "/c" "2023-01-01"]) :=
  (listing_sort_desc_stable
      [mkDoc "/a" "2023-01-01", mkDoc "/b" "2024-01-01", mkDoc "/c" "2023-01-01"]).2.1
    (mkDoc "/a" "2023-01-01") (mkDoc "/c" "2023-01-01") rfl (by decide)

/-- C4: the listing sort is total over arbitrary `createdAt` strings: the
query never fails (it returns `ok` for every store), the sorted output is a
permutation of the filtered store, the comparator is total on all documents,
and a concrete store holding the repository's own unparsed placeholder values
"TBA" and "April 8th 2023" sorts without failure. -/
theorem listing_sort_total_no_failure (store : List Document) :
    runQuery store listingQuery =
      Except.ok ((listingDocs store).map (projectFields listingQuery.projection)) ∧
    (listingDocs store).Perm (listingKept store) ∧
    (∀ a b : Document, sortRel listingQuery a b ∨ sortRel listingQuery b a) ∧
    listingDocs [mkDoc "/a" "TBA", mkDoc "/b" "April 8th 2023"] =
      [mkDoc "/a" "TBA", mkDoc "/b" "April 8th 2023"] :=
  ⟨runQuery_listing store, List.perm_insertionSort _ _, sortRel_total _, by decide⟩

/-- C10: the listing exclusion filter matches by exact path equality only:
every stored document whose path differs from `/blog` — in particular one
whose path strictly extends it, such as `/blog/apache-kafka-python` — appears
in the listing result. -/
theorem listing_filter_exact_match_only (store : List Document) (d : Document)
    (out : List ProjRecord) (hout : runQuery store listingQuery = Except.ok out)
    (hd : d ∈ store) (hne : d.path ≠ "/blog") :
    projectFields listingQuery.projection d ∈ out := by
  rw [runQuery_listing] at hout
  obtain rfl : out = (listingDocs store).map (projectFields listingQuery.projection) :=
    (Except.ok.inj hout).symm
  refine List.mem_map_of_mem _ ?_
  refine (List.mem_insertionSort (sortRel listingQuery)).mpr ?_
  refine List.mem_filter.mpr ⟨hd, ?_⟩
  simp [listingQuery, hne]

/-- Witness for C10: in a store holding the `/blog` index document and the
document at `/blog/apache-kafka-python`, the latter appears in the listing
output even though its path extends the excluded path. -/
theorem listing_filter_exact_match_only_witness :
    projectFields listingQuery.projection (mkDoc "/blog/apache-kafka-python" "April 8th 2023") ∈
      (listingDocs [mkDoc "/blog" "", mkDoc "/blog/apache-kafka-python" "April 8th 2023"]).map
        (projectFields listingQuery.projection) :=
  listing_filter_exact_match_only
    [mkDoc "/blog" "", mkDoc "/blog/apache-kafka-python" "April 8th 2023"]
    (mkDoc "/blog/apache-kafka-python" "April 8th 2023") _ rfl
    (by decide) (by decide)

/-- A markdown-processing stage, per the specification: math rewriting, code
highlighting, or the anchor/table-of-contents stage. -/
inductive Stage where
  | math
  | codeHighlight
  | anchorToc
deriving DecidableEq, Repr

/-- The remark plugin list of `nuxt.config.ts`
(`content.markdown.remarkPlugins`), in its configured order. -/
def remarkPlugins : List String := ["remark-highlight.js", "remark-math"]

/-- The rehype plugin list of `nuxt.config.ts`
(`content.markdown.rehypePlugins`). -/
def rehypePlugins : List String := ["rehype-mathjax"]

/-- The processing stage a configured plugin belongs to: the highlight plugin
is the code-highlighting stage; the math detection and math rendering plugins
are the math stage. -/
def stageOfPlugin (p : String) : Option Stage :=
  if p = "remark-highlight.js" then some Stage.codeHighlight
  else if p = "remark-math" then some Stage.math
  else if p = "rehype-mathjax" then some Stage.math
  else none

/-- The stage sequence of the Markdown Processor: remark plugins run in
configured order, then rehype plugins, then the anchor/table-of-contents
stage (whose final placement, after all plugin rewriting, is modelled from
the spec, the stage itself being supplied by the content framework). -/
def pipelineStages : List Stage :=
  remarkPlugins.filterMap stageOfPlugin ++ rehypePlugins.filterMap stageOfPlugin ++
    [Stage.anchorToc]

/-- C3 counterexample: the configured pipeline does not run the math stage
before the code-highlighting stage — `nuxt.config.ts` lists
`remark-highlight.js` before `remark-math`, so the code-highlighting stage
comes first. -/
theorem math_stage_not_first :
    ¬ (pipelineStages.indexOf Stage.math < pipelineStages.indexOf Stage.codeHighlight) := by
  decide

/-- C3 amended: the Markdown Processor runs its stages in the order
code-highlighting first, then math, then the anchor/TOC stage last, for every
document body it processes. -/
theorem pipeline_stage_order :
    pipelineStages = [Stage.codeHighlight, Stage.math, Stage.math, Stage.anchorToc] ∧
    pipelineStages.indexOf Stage.codeHighlight < pipelineStages.indexOf Stage.math ∧
    pipelineStages.getLast? = some Stage.anchorToc := by
  decide

/-- C7: each listing output record carries exactly the requested projection
fields and no others: every output field key is requested, the listing
projection yields precisely the six requested keys, `body` and `tocConfig`
never appear, and the output does not depend on unrequested fields. -/
theorem projection_exact_fields :
    (∀ (fields : List String) (d : Document) (k : String) (v : FieldValue),
      (k, v) ∈ projectFields fields d → fields.contains k = true) ∧
    (∀ d : Document, (projectFields listingQuery.projection d).map Prod.fst =
      ["_path", "title", "author", "createdAt", "description", "tags"]) ∧
    (∀ d : Document,
      "body" ∉ (projectFields listingQuery.projection d).map Prod.fst ∧
      "tocConfig" ∉ (projectFields listingQuery.projection d).map Prod.fst) ∧
    (∀ d d2 : Document, d.path = d2.path → d.title = d2.title → d.author = d2.author →
      d.createdAt = d2.createdAt → d.description = d2.description → d.tags = d2.tags →
      projectFields listingQuery.projection d = projectFields listingQuery.projection d2) := by
  refine ⟨?_, ?_, ?_, ?_⟩
  · intro fields d k v h
    exact (List.mem_filter.mp h).2
  · intro d
    rw [projectFields_listing]
    rfl
  · intro d
    rw [projectFields_listing]
    constructor <;> simp
  · intro d d2 h1 h2 h3 h4 h5 h6
    rw [projectFields_listing, projectFields_listing, h1, h2, h3, h4, h5, h6]

/-- Witness for C7: two concrete documents differing only in `body` and
`tocConfig` have identical listing projections. -/
theorem projection_exact_fields_witness :
    projectFields listingQuery.projection
        { mkDoc "/x" "2023-01-01" with body := "alpha", tocConfig := ⟨1, 1⟩ } =
      projectFields listingQuery.projection
        { mkDoc "/x" "2023-01-01" with body := "beta", tocConfig := ⟨2, 4⟩ } :=
  projection_exact_fields.2.2.2 _ _ rfl rfl rfl rfl rfl rfl

/-- Failure of a direct document fetch. -/
inductive FetchError where
  | documentNotFound : String → FetchError
deriving DecidableEq, Repr

/-- Modelled from the spec: direct fetch of one document by path from the
Document Store (performed by the content framework's document-driven render
path, which is not among the repository's source files). -/
def fetchDocument (store : List Document) (p : String) : Except FetchError Document :=
  match store.find? (fun d => d.path == p) with
  | some d => Except.ok d
  | none => Except.error (FetchError.documentNotFound p)

/-- A full-page render outcome: a rendered document page or a user-visible
not-found state. -/
inductive PageRender where
  | page : Document → PageRender
  | notFound : String → PageRender
deriving DecidableEq, Repr

/-- Modelled from the spec: the full-document render path — fetch one
document by path; a missing path is surfaced as a user-visible not-found
render rather than raising to the caller. -/
def renderPage (store : List Document) (p : String) : PageRender :=
  match fetchDocument store p with
  | Except.ok d => PageRender.page d
  | Except.error (FetchError.documentNotFound q) => PageRender.notFound q

/-- C8: a query with an unrecognized sort key fails with `InvalidQuery` at
query time, and fetching a path absent from the store fails with
`DocumentNotFound` and yields a user-visible not-found render rather than
raising to the caller. -/
theorem invalid_query_and_not_found (store : List Document) (q : Query) (p : String)
    (hk : recognizedFields.contains q.sortKey = false)
    (hp : ∀ d ∈ store, d.path ≠ p) :
    runQuery store q = Except.error (QueryError.invalidQuery q.sortKey) ∧
    fetchDocument store p = Except.error (FetchError.documentNotFound p) ∧
    renderPage store p = PageRender.notFound p := by
  have hfind : store.find? (fun d => d.path == p) = none := by
    rw [List.find?_eq_none]
    intro d hd
    simpa using hp d hd
  refine ⟨?_, ?_, ?_⟩
  · rw [runQuery, hk]
    simp
  · rw [fetchDocument, hfind]
  · rw [renderPage, fetchDocument, hfind]

/-- Witness for C8: on a concrete one-document store, sorting by the
unrecognized key `nonexistent` fails with `InvalidQuery`, and fetching the
absent path `/blog/missing` fails with `DocumentNotFound` and renders the
not-found state. -/
theorem invalid_query_and_not_found_witness :
    runQuery [mkDoc "/blog/apache-kafka-python" "April 8th 2023"]
        { excludePaths := [], sortKey := "nonexistent", sortDesc := true,
          projection := ["title"] } =
      Except.error (QueryError.invalidQuery "nonexistent") ∧
    fetchDocument [mkDoc "/blog/apache-kafka-python" "April 8th 2023"] "/blog/missing" =
      Except.error (FetchError.documentNotFound "/blog/missing") ∧
    renderPage [mkDoc "/blog/apache-kafka-python" "April 8th 2023"] "/blog/missing" =
      PageRender.notFound "/blog/missing" :=
  invalid_query_and_not_found _ _ _ (by decide) (by decide)

/-- The string value of a field in a projected record, as interpolated by the
`layouts/index.vue` template. -/
def recStr (r : ProjRecord) (k : String) : String :=
  match List.lookup k r with
  | some (FieldValue.str s) => s
  | _ => ""

/-- The tag sequence of a projected record, as iterated by the template's
`v-for tag in post.tags` in `layouts/index.vue`. -/
def recTags (r : ProjRecord) : List String :=
  match List.lookup "tags" r with
  | some (FieldValue.strList ts) => ts
  | _ => []

/-- A rendered summary block from the `layouts/index.vue` template: title
heading, description line, createdAt-by-author byline, tag chips in template
iteration order, and the link target path. -/
structure Summary where
  titleText : String
  descriptionText : String
  bylineDate : String
  bylineAuthor : String
  chips : List String
  linkTarget : String
deriving DecidableEq, Repr

/-- One summary block of the Listing View, from the `layouts/index.vue`
template: the tag chips are produced by iterating `post.tags` in order. -/
def renderSummary (r : ProjRecord) : Summary :=
  { titleText := recStr r "title"
    descriptionText := recStr r "description"
    bylineDate := recStr r "createdAt"
    bylineAuthor := recStr r "author"
    chips := recTags r
    linkTarget := recStr r "_path" }

/-- The Listing View: one summary block per projected record, in Content
Index output order, per `layouts/index.vue`. -/
def renderListing (store : List Document) : List Summary :=
  match runQuery store listingQuery with
  | Except.ok out => out.map renderSummary
  | Except.error _ => []

/-- C9: for every record rendered in the listing summary, the tag chips
appear in exactly the front-matter declaration order of that record's tags:
the chips of each summary equal the document's `tags` sequence, the listing
renders one summary per listed document in order, and tags `[A, B, C]` render
as chips `A, B, C`. -/
theorem summary_tags_in_declaration_order :
    (∀ d : Document,
      (renderSummary (projectFields listingQuery.projection d)).chips = d.tags) ∧
    (∀ store : List Document, renderListing store =
      (listingDocs store).map (fun d => renderSummary (projectFields listingQuery.projection d))) ∧
    (renderSummary (projectFields listingQuery.projection
      { mkDoc "/p" "2023-01-01" with tags := ["A", "B", "C"] })).chips = ["A", "B", "C"] := by
  refine ⟨?_, ?_, by decide⟩
  · intro d
    rw [projectFields_listing]
    rfl
  · intro store
    rw [renderListing, runQuery_listing]
    simp

/-- Modelled from the spec: the anchor slug of a heading text — lowercase,
whitespace mapped to hyphens, punctuation stripped (anchor generation is
performed by the content framework's anchor/TOC stage, not among the
repository's source files). -/
def slugify (s : String) : String :=
  String.mk ((s.data.map Char.toLower).filterMap (fun c =>
    if c = ' ' then some '-'
    else if c.isAlphanum then some c
    else none))

/-- The anchor of a heading whose slug already collided `k` times: the slug
itself first, then the slug with an incrementing numeric suffix. -/
def anchorName (base : String) (k : Nat) : String :=
  if k = 0 then base else base ++ "-" ++ toString k

/-- Modelled from the spec: the anchor/TOC stage walks headings in document
order; each heading receives the anchor of its slug at its position among
same-slug collisions, counted over the already-walked prefix of slugs. -/
def assignAnchorsFrom (prior : List String) : List String → List String
  | [] => []
  | h :: hs =>
    anchorName (slugify h) (prior.count (slugify h)) ::
      assignAnchorsFrom (prior ++ [slugify h]) hs

/-- Anchor assignment over a document's heading sequence. -/
def assignAnchors (hs : List String) : List String := assignAnchorsFrom [] hs

theorem assignAnchorsFrom_eq (prior : List String) (hs : List String) :
    assignAnchorsFrom prior hs =
      (List.range hs.length).map (fun i =>
        anchorName (slugify (hs.getD i ""))
          (prior.count (slugify (hs.getD i "")) +
            ((hs.take i).map slugify).count (slugify (hs.getD i "")))) := by
  induction hs generalizing prior with
  | nil => rfl
  | cons h hs ih =>
    rw [assignAnchorsFrom, List.length_cons, List.range_succ_eq_map, List.map_cons,
      List.map_map, ih (prior ++ [slugify h])]
    congr 1
    refine List.map_congr_left fun i hi => ?_
    show anchorName (slugify (hs.getD i ""))
        ((prior ++ [slugify h]).count (slugify (hs.getD i "")) +
          ((hs.take i).map slugify).count (slugify (hs.getD i ""))) =
      anchorName (slugify ((h :: hs).getD (i + 1) ""))
        (prior.count (slugify ((h :: hs).getD (i + 1) "")) +
          (((h :: hs).take (i + 1)).map slugify).count (slugify ((h :: hs).getD (i + 1) "")))
    have hg : (h :: hs).getD (i + 1) "" = hs.getD i "" := rfl
    have ht : ((h :: hs).take (i + 1)).map slugify =
        slugify h :: (hs.take i).map slugify := rfl
    rw [hg, ht, List.count_append, List.count_cons, List.count_cons, List.count_nil]
    congr 1
    omega

/-- C5: anchor generation is a pure function of heading text and collision
position: each heading's anchor is the anchor of its slug at the number of
earlier same-slug headings (so re-processing the same document yields
identical anchors), and the duplicate headings "Setup", "Setup" receive
anchors `setup` and `setup-1` in document order. -/
theorem anchors_pure_of_text_and_collisions :
    assignAnchors ["Setup", "Setup"] = ["setup", "setup-1"] ∧
    (∀ hs : List String, assignAnchors hs =
      (List.range hs.length).map (fun i =>
        anchorName (slugify (hs.getD i ""))
          (((hs.take i).map slugify).count (slugify (hs.getD i ""))))) := by
  refine ⟨by decide, ?_⟩
  intro hs
  rw [assignAnchors, assignAnchorsFrom_eq]
  simp

/-- The metadata of one document: its front-matter key/value pairs. -/
abbrev Metadata : Type := List (String × String)

/-- Failure of front-matter extraction for a single document. -/
inductive ExtractError where
  | malformedFrontMatter : ExtractError
deriving DecidableEq, Repr

/-- Character-level line splitting at newline characters. -/
def splitLinesAux : List Char → List Char → List String
  | [], acc => [String.mk acc.reverse]
  | c :: cs, acc =>
    if c = '\n' then String.mk acc.reverse :: splitLinesAux cs []
    else splitLinesAux cs (c :: acc)

/-- The lines of a raw document text. -/
def splitLines (s : String) : List String := splitLinesAux s.data []

/-- Character-level trimming of surrounding spaces. -/
def trimStr (s : String) : String :=
  String.mk (((s.data.dropWhile (fun c => c == ' ')).reverse.dropWhile
    (fun c => c == ' ')).reverse)

/-- Modelled from the spec: one front-matter line must be a `key: value`
pair; the key is the trimmed text before the first colon, the value the
trimmed remainder; a line with no colon is malformed. -/
def parseMetaLine (l : String) : Option (String × String) :=
  match l.data.dropWhile (fun c => c != ':') with
  | [] => none
  | _ :: valueChars =>
    some (trimStr (String.mk (l.data.takeWhile (fun c => c != ':'))),
      trimStr (String.mk valueChars))

/-- Modelled from the spec: front-matter extraction by the Metadata Extractor
(the front-matter parser of the content framework, not among the repository's
source files). A document opening with a `---` line must contain a closing
`---` line with only `key: value` lines between, else extraction fails with
the `MalformedFrontMatter` condition scoped to that document; a document not
opening with `---` has empty metadata and its whole text as body. -/
def extractFrontMatter (raw : String) : Except ExtractError (Metadata × String) :=
  match splitLines raw with
  | [] => Except.ok ([], raw)
  | first :: rest =>
    if first = "---" then
      match rest.findIdx? (fun l => l == "---") with
      | none => Except.error ExtractError.malformedFrontMatter
      | some i =>
        match (rest.take i).mapM parseMetaLine with
        | none => Except.error ExtractError.malformedFrontMatter
        | some meta => Except.ok (meta, String.intercalate "\n" (rest.drop (i + 1)))
    else Except.ok ([], raw)

/-- Modelled from the spec: loading one document — on extraction failure the
document is retained with empty metadata and the full original text as body. -/
def loadDocumentMeta (raw : String) : Metadata × String :=
  match extractFrontMatter raw with
  | Except.ok mb => mb
  | Except.error _ => ([], raw)

/-- Modelled from the spec: loading the Document Store — each `(path, raw)`
pair is extracted independently. -/
def loadStore (pairs : List (String × String)) : List (String × Metadata × String) :=
  pairs.map (fun pr => (pr.1, loadDocumentMeta pr.2))

/-- C6: front-matter extraction failure is contained per document: a document
whose extraction fails with `MalformedFrontMatter` is retained with empty
metadata and its full original text as body; loading a store handles every
document independently, so all sibling documents are unaffected; and a
concrete unterminated front-matter block is such a failure. -/
theorem frontmatter_failure_contained :
    (∀ raw : String,
      extractFrontMatter raw = Except.error ExtractError.malformedFrontMatter →
      loadDocumentMeta raw = ([], raw)) ∧
    (∀ (pre post : List (String × String)) (p raw : String),
      loadStore (pre ++ (p, raw) :: post) =
        loadStore pre ++ (p, loadDocumentMeta raw) :: loadStore post) ∧
    extractFrontMatter "---\ntitle" = Except.error ExtractError.malformedFrontMatter := by
  refine ⟨?_, ?_, rfl⟩
  · intro raw h
    simp only [loadDocumentMeta]
    rw [h]
  · intro pre post p raw
    simp [loadStore]

/-- Witness for C6: the concrete document text `---\ntitle`, whose
front-matter block is never closed, fails extraction and is retained with
empty metadata and its original text as body. -/
theorem frontmatter_failure_contained_witness :
    loadDocumentMeta "---\ntitle" = ([], "---\ntitle") :=
  frontmatter_failure_contained.1 "---\ntitle" rfl

end Blog
